import Mathlib

/-!
Shallow embedding of `src/js/console.js` (the `Log.console` command interpreter
and log state machine) together with proofs of the specification claims.

Modelling conventions:
* JS strings are `String`; a JS value that may be `undefined` is `Option String`.
* The `'undefined'` sentinel stored in a log entry's `e` field is the literal
  string `"undefined"` exactly as in the source.
* Each handler returns `EffState × Option JSError`: the state after the call
  (in every handler of this file a thrown `TypeError` happens before any
  mutation, so on an error the state is returned unchanged) plus the error, if
  one was raised.
* Calls into external modules are modelled explicitly: `window.Notification`
  appends to `notifs`, `Log.options.update()` increments `refreshes`,
  `clearInterval(timer)` increments `clockCancels`, and the `Log.options.set*`
  family / import / export record an entry in `sideCalls`.  `Log.time.toHex(new
  Date())` is a `now : String` parameter and `Log.time.convertDateTime` is a
  function parameter, both external to this file's source.
-/

namespace LogJS

/-- The double-quote character, written via its code point. -/
def quoteChar : Char := Char.ofNat 34

/-- A one-character string holding the double quote. -/
def quoteStr : String := String.mk [quoteChar]

/-- Embeds JS `String.prototype.toLowerCase()` for the ASCII data this program
handles: character-wise ASCII lowercasing. -/
def jsToLower (s : String) : String := String.mk (s.data.map Char.toLower)

/-- Embeds `str.split(' ', 1)[0]`: the prefix of the string up to (not
including) the first space, or the whole string if it has no space. -/
def firstToken (s : String) : String := String.mk (s.data.takeWhile (fun c => c != ' '))

/-- The `Command` object produced by `parseCmd` (console.js lines 12-16). -/
structure Command where
  operation : String
  args : List String
deriving DecidableEq

/-- `Log.console.startOp` (line 6). -/
def startOp : List String := ["start", "begin"]

/-- `Log.console.stopOp` (line 7). -/
def stopOp : List String := ["stop", "end", "pause"]

/-- `Log.console.resumeOp` (line 8). -/
def resumeOp : List String := ["resume", "continue"]

/-- `Log.console.addOp` (line 9).  Note the source array is
`['add', 'continue']` - it does NOT contain `'new'`, although the EBNF doc
comment above `parseCmd` (line 29) documents `<add> := "add" | "new"`. -/
def addOp : List String := ["add", "continue"]

/-- `Log.console.possibleOperations` (line 10): the spread of the four alias
arrays followed by the remaining literal operation names. -/
def possibleOperations : List String :=
  startOp ++ stopOp ++ resumeOp ++ addOp ++
    ["edit", "delete", "set", "import", "export", "rename", "invert"]

/-- The character scanner inside `parseCmd` (lines 44-63), one step per
character.  State: `quoteStart` (inside a quoted argument), `arg` (the buffer
of the current argument) and `acc` (the committed arguments so far). -/
def quotedArgsAux : List Char → Bool → List Char → List String → List String
  | [], _, _, acc => acc
  | ch :: rest, quoteStart, arg, acc =>
    if ch = quoteChar then
      if quoteStart then quotedArgsAux rest false [] (acc ++ [String.mk arg])
      else quotedArgsAux rest true arg acc
    else
      if quoteStart then quotedArgsAux rest true (arg ++ [ch]) acc
      else quotedArgsAux rest false arg acc

/-- `quotedArgs` (lines 44-63): scan the raw input, committing the buffered
argument at each closing quote. -/
def quotedArgs (s : String) : List String := quotedArgsAux s.data false [] []

/-- `Log.console.parseCmd` (lines 40-68): lower-case the first
whitespace-delimited token, silently reject unless it is a member of
`possibleOperations`, and collect the quote-wrapped arguments. -/
def parseCmd (s : String) : Option Command :=
  if possibleOperations.contains (jsToLower (firstToken s)) then
    some { operation := jsToLower (firstToken s), args := quotedArgs s }
  else
    none

/-- One persisted log entry, shape `{s, e, c, t, d}` (spec section 6; pushed at
console.js lines 197-203 and 219-225).  `c`, `t`, `d` come from command
arguments that may be JS `undefined`, hence `Option String`. -/
structure LogEntry where
  s : String
  e : String
  c : Option String
  t : Option String
  d : Option String
deriving DecidableEq

/-- `user.config.ui` - the two palette values swapped by `invert`
(lines 379-383). -/
structure UIConfig where
  bg : String
  colour : String
deriving DecidableEq

/-- The mutable `user` global: the log plus the config. -/
structure UserState where
  log : List LogEntry
  config : UIConfig
deriving DecidableEq

/-- The observable state: the user data plus the externally visible effects
(notifications sent, `Log.options.update()` refresh signals, clock
cancellations, and opaque external calls such as `Log.options.set*`). -/
structure EffState where
  user : UserState
  notifs : List String
  refreshes : Nat
  clockCancels : Nat
  sideCalls : List (String × Option String)
deriving DecidableEq

/-- The JS runtime errors this program can raise: `TypeError` from property
access on `undefined` and from the `in` operator, `SyntaxError` from
`JSON.parse` on invalid input. -/
inductive JSError where
  | typeError
  | syntaxError
deriving DecidableEq

/-- Template-literal stringification of a possibly-undefined JS value. -/
def jstr : Option String → String
  | none => "undefined"
  | some v => v

/-- `window.Notification(msg)`. -/
def notify (msg : String) (st : EffState) : EffState :=
  { st with notifs := st.notifs ++ [msg] }

/-- `Log.options.update()` - the log-changed refresh signal. -/
def optionsUpdate (st : EffState) : EffState :=
  { st with refreshes := st.refreshes + 1 }

/-- The guard of `startLog` (line 193):
`user.log.length !== 0 && user.log.slice(-1)[0].e === 'undefined'`. -/
def lastOpen (log : List LogEntry) : Bool :=
  match log.getLast? with
  | some en => en.e == "undefined"
  | none => false

/-- `Log.console.startLog` (lines 192-208): no-op when the last entry is open;
otherwise push `{s: now, e: 'undefined', c, t, d}`, notify, refresh. -/
def startLog (now : String) (sect proj desc : Option String) (st : EffState) :
    EffState × Option JSError :=
  if lastOpen st.user.log then (st, none)
  else
    let entry : LogEntry := { s := now, e := "undefined", c := sect, t := proj, d := desc }
    let st1 := { st with user := { st.user with log := st.user.log ++ [entry] } }
    let st2 := notify ("Log started: " ++ jstr sect ++ " - " ++ jstr proj ++ " - " ++ jstr desc) st1
    (optionsUpdate st2, none)

/-- `Log.console.addLog` (lines 218-230): unconditionally push an entry whose
boundaries come from `Log.time.convertDateTime` (external, passed as the
`convertDateTime` parameter), then notify and refresh. -/
def addLog (convertDateTime : Option String → String)
    (sect proj desc startT endT : Option String) (st : EffState) :
    EffState × Option JSError :=
  let entry : LogEntry :=
    { s := convertDateTime startT, e := convertDateTime endT, c := sect, t := proj, d := desc }
  let st1 := { st with user := { st.user with log := st.user.log ++ [entry] } }
  let st2 := notify ("Log added: " ++ jstr sect ++ " - " ++ jstr proj ++ " - " ++ jstr desc) st1
  (optionsUpdate st2, none)

/-- `Log.console.endLog` (lines 235-244): `let last = user.log.slice(-1)[0]`
is `undefined` on an empty log, so the following `last.e` read throws a
TypeError.  Otherwise: no-op when the last entry is already closed; else set
its `e` to now, cancel the ticking clock, notify, refresh. -/
def endLog (now : String) (st : EffState) : EffState × Option JSError :=
  match st.user.log.getLast? with
  | none => (st, some JSError.typeError)
  | some last =>
    if last.e != "undefined" then (st, none)
    else
      let st1 := { st with
        user := { st.user with log := st.user.log.dropLast ++ [{ last with e := now }] },
        clockCancels := st.clockCancels + 1 }
      let st2 := notify ("Log ended: " ++ jstr last.c ++ " - " ++ jstr last.t ++ " - " ++ jstr last.d) st1
      (optionsUpdate st2, none)

/-- JS `Array.prototype.slice(start)`'s effective start index: negative values
count from the end (clamped at 0), non-negative values are clamped at the
length. -/
def jsSliceStart (len : Nat) (id : Int) : Nat :=
  if id < 0 then ((len : Int) + id).toNat else min id.toNat len

/-- `Log.console.resume` (lines 251-267): `let entry = user.log.slice(id)[0]`
is `undefined` on an empty log (TypeError on the `entry.e` read); no-op when
the referenced entry is still open; otherwise push a fresh open entry copying
`c`, `t`, `d`.  The only call site uses the default `id = -1`. -/
def resume (now : String) (st : EffState) (id : Int := -1) : EffState × Option JSError :=
  match (st.user.log.drop (jsSliceStart st.user.log.length id)).head? with
  | none => (st, some JSError.typeError)
  | some entry =>
    if entry.e == "undefined" then (st, none)
    else
      let fresh : LogEntry := { s := now, e := "undefined", c := entry.c, t := entry.t, d := entry.d }
      let st1 := { st with user := { st.user with log := st.user.log ++ [fresh] } }
      let st2 := notify ("Log resumed: " ++ jstr entry.c ++ " - " ++ jstr entry.t ++ " - " ++ jstr entry.d) st1
      (optionsUpdate st2, none)

/-- Record a call into the external `Log.options` setter family (or another
opaque external effect): name of the setter and the value passed. -/
def sideCall (name : String) (value : Option String) (st : EffState) : EffState :=
  { st with sideCalls := st.sideCalls ++ [(name, value)] }

/-- `Log.console.set` (lines 274-300): route the attribute to the matching
external `Log.options` setter; unknown attributes fall through silently. -/
def set (attr : String) (value : Option String) (st : EffState) : EffState × Option JSError :=
  if attr == "background" || attr == "bg" then (sideCall "setBG" value st, none)
  else if attr == "color" || attr == "colour" || attr == "text" then (sideCall "setColour" value st, none)
  else if attr == "highlight" || attr == "accent" then (sideCall "setAccent" value st, none)
  else if attr == "font" || attr == "typeface" || attr == "type" then (sideCall "setFont" value st, none)
  else if attr == "view" then (sideCall "setView" value st, none)
  else if attr == "cal" || attr == "calendar" then (sideCall "setCalendar" value st, none)
  else if attr == "timeformat" || attr == "time" then (sideCall "setTimeFormat" value st, none)
  else if attr == "dateformat" || attr == "date" then (sideCall "setDateFormat" value st, none)
  else if attr == "weekstart" then (sideCall "setWeekStart" value st, none)
  else if attr == "category" || attr == "sector" || attr == "cat" || attr == "sec" then
    (sideCall "setColourCode" value st, none)
  else if attr == "project" || attr == "pro" then (sideCall "setProjectColourCode" value st, none)
  else if attr == "colourmode" || attr == "colormode" then (sideCall "setColourMode" value st, none)
  else (st, none)

/-- Numeric value of a list of decimal digit characters. -/
def digitsVal (ds : List Char) : Nat :=
  ds.foldl (fun acc c => acc * 10 + (c.toNat - 48)) 0

/-- Embeds JS `Number(x)` for the input shapes this program receives:
`undefined` gives NaN (modelled `none`), the empty string gives `0`, a string
of decimal digits (optionally with a leading minus) gives that integer, and
anything else gives NaN. -/
def jsNumber : Option String → Option Int
  | none => none
  | some v =>
    match v.data with
    | [] => some 0
    | '-' :: rest =>
      if rest ≠ [] ∧ rest.all (fun c => c.isDigit) then some (-(digitsVal rest : Int)) else none
    | ds =>
      if ds.all (fun c => c.isDigit) then some ((digitsVal ds : Int)) else none

/-- JS `Array.prototype.splice(start, 1)`'s effective start: NaN coerces to 0,
negative values count from the end (clamped at 0), non-negative values are
clamped at the length. -/
def jsSpliceStart (len : Nat) : Option Int → Nat
  | none => 0
  | some i => if i < 0 then ((len : Int) + i).toNat else min i.toNat len

/-- `Log.console.delete` (lines 306-309): `user.log.splice(id - 1, 1)` - note
the handler subtracts 1 from the id it is given (the `executeCmd` arm at lines
110-114 has already subtracted 1 from the user's row number), then signals a
refresh unconditionally. -/
def delete (id : Option Int) (st : EffState) : EffState × Option JSError :=
  let k := jsSpliceStart st.user.log.length (id.map (fun n => n - 1))
  (optionsUpdate { st with
      user := { st.user with log := st.user.log.take k ++ st.user.log.drop (k + 1) } }, none)

/-- Replace the entry at index `i` (when in range) by `f` of it. -/
def updAt (log : List LogEntry) (i : Nat) (f : LogEntry → LogEntry) : List LogEntry :=
  match log.get? i with
  | some en => log.set i (f en)
  | none => log

/-- JS property write `user.log[id].attr = v`: valid only when `id` is an
integer in range; `user.log[NaN]`, a negative or an out-of-range index is
`undefined` and the field write throws a TypeError. -/
def jsIndexOk (len : Nat) : Option Int → Option Nat
  | none => none
  | some i => if 0 ≤ i ∧ i.toNat < len then some i.toNat else none

/-- `Log.console.edit` (lines 317-331): overwrite one field of `user.log[id]`
selected by `attr` (with `start`/`end` values going through the external
`Log.time.convertDateTime`); unknown attributes return without refreshing. -/
def edit (convertDateTime : Option String → String) (id : Option Int) (attr : String)
    (value : Option String) (st : EffState) : EffState × Option JSError :=
  let assign (f : LogEntry → LogEntry) : EffState × Option JSError :=
    match jsIndexOk st.user.log.length id with
    | some i =>
      (optionsUpdate { st with user := { st.user with log := updAt st.user.log i f } }, none)
    | none => (st, some JSError.typeError)
  if attr == "sec" || attr == "sector" then assign (fun en => { en with c := value })
  else if attr == "title" || attr == "pro" || attr == "project" then
    assign (fun en => { en with t := value })
  else if attr == "desc" || attr == "dsc" || attr == "description" then
    assign (fun en => { en with d := value })
  else if attr == "start" then assign (fun en => { en with s := convertDateTime value })
  else if attr == "end" then assign (fun en => { en with e := convertDateTime value })
  else (st, none)

/-- The own property keys of a JS array of length `n`: the index strings plus
`length`.  (Keys inherited from `Array.prototype` are omitted; no key this
program ever probes with `in` names one of them.) -/
def arrayKeys (n : Nat) : List String := (List.range n).map toString ++ ["length"]

/-- JS `key in arr` for an array value: key membership, not value
membership. -/
def jsInArrayKeys (key : String) (n : Nat) : Bool := (arrayKeys n).contains key

/-- Modelled from the spec: `Log.data.getEntriesBySector` lives in an external
data module that is not under `src/`; per spec section 4.4 `rename` "scans the
full Log; if zero entries match `oldName` in the targeted field" it reports
not-found, so this returns the entries whose sector equals the given name. -/
def getEntriesBySector (name : Option String) (log : List LogEntry) : List LogEntry :=
  log.filter (fun en => en.c == name)

/-- Modelled from the spec: `Log.data.getEntriesByProject`, as
`getEntriesBySector` but on the project field. -/
def getEntriesByProject (name : Option String) (log : List LogEntry) : List LogEntry :=
  log.filter (fun en => en.t == name)

/-- `Log.console.rename` (lines 339-373).  The guard on line 341 is
`if (!(category in ['sector', 'sec', 'project', 'pro'])) return`: the `in`
operator tests KEY membership on the array (keys `"0"`-`"3"` and `"length"`),
so the intended category names never pass it. -/
def rename (category oldName newName : Option String) (st : EffState) :
    EffState × Option JSError :=
  if !(jsInArrayKeys (jstr category) 4) then (st, none)
  else if category == some "sector" || category == some "sec" then
    if (getEntriesBySector oldName st.user.log).length = 0 then
      (notify ("The sector " ++ quoteStr ++ jstr oldName ++ quoteStr ++
        " does not exist in your logs.") st, none)
    else
      let st1 := { st with user := { st.user with
        log := st.user.log.map (fun en => if en.c == oldName then { en with c := newName } else en) } }
      let st2 := notify ("The sector " ++ quoteStr ++ jstr oldName ++ quoteStr ++
        " has been renamed to " ++ quoteStr ++ jstr newName ++ "." ++ quoteStr) st1
      (optionsUpdate st2, none)
  else if category == some "project" || category == some "pro" then
    if (getEntriesByProject oldName st.user.log).length = 0 then
      (notify ("The project " ++ quoteStr ++ jstr oldName ++ quoteStr ++
        " does not exist in your logs.") st, none)
    else
      let st1 := { st with user := { st.user with
        log := st.user.log.map (fun en => if en.t == oldName then { en with t := newName } else en) } }
      let st2 := notify ("The sector " ++ quoteStr ++ jstr oldName ++ quoteStr ++
        " has been renamed to " ++ quoteStr ++ jstr newName ++ "." ++ quoteStr) st1
      (optionsUpdate st2, none)
  else (st, none)

/-- `Log.console.invert` (lines 378-386): swap the two palette values and
refresh. -/
def invert (st : EffState) : EffState × Option JSError :=
  let bg := st.user.config.bg
  let c := st.user.config.colour
  (optionsUpdate { st with user := { st.user with config := { bg := c, colour := bg } } }, none)

/-- `Log.console.importUser` (lines 147-166).  The external collaborators are
parameters: `dialogPath` is the first path selected in
`dialog.showOpenDialog` (`none` when the dialog was cancelled, in which case
`if (!path) return` exits with no effect); `readFile` is the outcome of
`fs.readFileSync(path[0], 'utf-8')` (`Except.error` when it throws, which the
`catch` turns into an error notification while `string` keeps its initial
`''`); `parseUser` is the outcome of `JSON.parse` on the string just written
to `localStorage` (`Except.error` for a `SyntaxError`, which propagates
uncaught; `Except.ok` replaces the whole `user` global).  The `localStorage`
write and the final `Log.refresh()` are recorded as opaque external calls. -/
def importUser (dialogPath : Option String) (readFile : String → Except Unit String)
    (parseUser : String → Except JSError UserState) (st : EffState) :
    EffState × Option JSError :=
  match dialogPath with
  | none => (st, none)
  | some p =>
    let readOut : String × EffState :=
      match readFile p with
      | Except.ok contents => (contents, st)
      | Except.error _ =>
        ("", notify "An error occured while trying to load this file." st)
    let st1 := sideCall "localStorage.setItem user" (some readOut.1) readOut.2
    match parseUser readOut.1 with
    | Except.error err => (st1, some err)
    | Except.ok newUser =>
      let st2 := notify "Your log data was successfully imported." { st1 with user := newUser }
      (sideCall "Log.refresh" none st2, none)

/-- `Log.console.exportUser` (lines 171-184).  `jsonData` is the outcome of
`JSON.stringify(JSON.parse(localStorage.getItem('user')))` (`Except.error`
for a `SyntaxError` from `JSON.parse`, which propagates); `saveFileName` is
the name the save dialog's callback receives (`none` for `undefined`, in
which case the callback returns); `writeErr` is the error `fs.writeFile`
passes to its callback (`some` of its message), which decides between the
error and the success notification.  The asynchronous dialog and write
callbacks of the source are flattened into this synchronous sequence; their
externally visible effects are recorded in the order they occur. -/
def exportUser (jsonData : Except JSError String) (saveFileName : Option String)
    (writeErr : Option String) (st : EffState) : EffState × Option JSError :=
  match jsonData with
  | Except.error err => (st, some err)
  | Except.ok data =>
    let st1 := sideCall "dialog.showSaveDialog" none st
    match saveFileName with
    | none => (st1, none)
    | some _ =>
      let st2 := sideCall "fs.writeFile" (some data) st1
      match writeErr with
      | some msg => (notify ("An error occured creating the file " ++ msg) st2, none)
      | none => (notify "Your log data has been exported." st2, none)

/-- The value of the property read `Log.startOp` inside `executeCmd`
(line 78).  This module assigns only `Log.console` (external modules assign
`Log.time`, `Log.options`, `Log.data`); nothing assigns `startOp` directly on
`Log` - the alias arrays live on `Log.console` - so the read yields
`undefined`, modelled as `none`. -/
def logObjStartOp : Option (List String) := none

/-- `Log.stopOp` as read on line 86: `undefined` for the same reason. -/
def logObjStopOp : Option (List String) := none

/-- `Log.resumeOp` as read on line 89: `undefined` for the same reason. -/
def logObjResumeOp : Option (List String) := none

/-- `Log.addOp` as read on line 92: `undefined` for the same reason. -/
def logObjAddOp : Option (List String) := none

/-- JS `key in obj` where `obj` is an array value or `undefined`: throws a
TypeError on `undefined`, otherwise tests key membership on the array. -/
def jsInOp (key : String) (obj : Option (List String)) : Except JSError Bool :=
  match obj with
  | none => Except.error JSError.typeError
  | some arr => Except.ok (jsInArrayKeys key arr.length)

/-- JS strict equality `true === s` for a string `s`: always false, the
operands have different types.  This is each `case 'edit':` ... `case
'invert':` label compared against the `switch (true)` discriminant. -/
def jsTrueEqString (_s : String) : Bool := false

/-- `cmd.args[1].toLowerCase()`: throws a TypeError when the argument is
absent (`undefined`). -/
def jsToLowerOpt : Option String → Except JSError String
  | none => Except.error JSError.typeError
  | some v => Except.ok (jsToLower v)

/-- The external collaborators `executeCmd`'s handlers consult, bundled: the
current time from `Log.time.toHex(new Date())`, the `Log.time.convertDateTime`
conversion, and the file-dialog / filesystem / store outcomes used by
`importUser` and `exportUser`. -/
structure Externals where
  now : String
  convertDateTime : Option String → String
  dialogPath : Option String
  readFile : String → Except Unit String
  parseUser : String → Except JSError UserState
  jsonData : Except JSError String
  saveFileName : Option String
  writeErr : Option String

/-- `Log.console.executeCmd` (lines 76-142): `switch (true)` evaluates the
case expressions in order.  The first case expression is
`cmd.operation in Log.startOp`; `Log.startOp` is `undefined`, so evaluating it
throws a TypeError before any handler can run.  The remaining arms are
transcribed faithfully even though they are unreachable. -/
def executeCmd (ext : Externals) (cmd : Command) (st : EffState) :
    EffState × Option JSError :=
  match jsInOp cmd.operation logObjStartOp with
  | Except.error err => (st, some err)
  | Except.ok b1 =>
  if b1 then
    startLog ext.now (cmd.args.get? 0) (cmd.args.get? 1) (cmd.args.get? 2) st
  else match jsInOp cmd.operation logObjStopOp with
  | Except.error err => (st, some err)
  | Except.ok b2 =>
  if b2 then endLog ext.now st
  else match jsInOp cmd.operation logObjResumeOp with
  | Except.error err => (st, some err)
  | Except.ok b3 =>
  if b3 then resume ext.now st
  else match jsInOp cmd.operation logObjAddOp with
  | Except.error err => (st, some err)
  | Except.ok b4 =>
  if b4 then
    addLog ext.convertDateTime (cmd.args.get? 0) (cmd.args.get? 1) (cmd.args.get? 2)
      (cmd.args.get? 3) (cmd.args.get? 4) st
  else if jsTrueEqString "edit" then
    match jsToLowerOpt (cmd.args.get? 1) with
    | Except.error err => (st, some err)
    | Except.ok attr =>
      edit ext.convertDateTime ((jsNumber (cmd.args.get? 0)).map (fun n => n - 1)) attr
        (cmd.args.get? 2) st
  else if jsTrueEqString "delete" then
    delete ((jsNumber (cmd.args.get? 0)).map (fun n => n - 1)) st
  else if jsTrueEqString "set" then
    match jsToLowerOpt (cmd.args.get? 0) with
    | Except.error err => (st, some err)
    | Except.ok attr => set attr (cmd.args.get? 1) st
  else if jsTrueEqString "import" then
    importUser ext.dialogPath ext.readFile ext.parseUser st
  else if jsTrueEqString "export" then
    exportUser ext.jsonData ext.saveFileName ext.writeErr st
  else if jsTrueEqString "rename" then
    rename (cmd.args.get? 0) (cmd.args.get? 1) (cmd.args.get? 2) st
  else if jsTrueEqString "invert" then invert st
  else (st, none)

/-- The `delete` arm of `executeCmd` (lines 110-114) in isolation: bind
`id := Number(cmd.args[0]) - 1` and call `Log.console.delete`.  The shipped
`switch` never reaches this arm (the first case throws); it is modelled
separately to examine the row-number conversion the arm performs. -/
def dispatchDelete (rowArg : Option String) (st : EffState) : EffState × Option JSError :=
  delete ((jsNumber rowArg).map (fun n => n - 1)) st

end LogJS

namespace LogJS

/-- Sample palette used by the concrete states below. -/
def cfg0 : UIConfig := { bg := "ffffff", colour := "000000" }

/-- A state with no log entries and no effects yet. -/
def emptyState : EffState :=
  { user := { log := [], config := cfg0 },
    notifs := [], refreshes := 0, clockCancels := 0, sideCalls := [] }

/-- A closed entry with sector `A`. -/
def entryA : LogEntry := { s := "01", e := "02", c := some "A", t := some "P", d := some "D1" }

/-- A closed entry with sector `B`. -/
def entryB : LogEntry := { s := "03", e := "04", c := some "B", t := some "Q", d := some "D2" }

/-- An entry still open (its `e` holds the `'undefined'` sentinel). -/
def openEntry : LogEntry :=
  { s := "05", e := "undefined", c := some "w", t := some "p", d := some "x" }

/-- A one-entry log (the closed entry `entryA`). -/
def oneEntryState : EffState :=
  { emptyState with user := { log := [entryA], config := cfg0 } }

/-- A two-entry log `[entryA, entryB]`. -/
def twoEntryState : EffState :=
  { emptyState with user := { log := [entryA, entryB], config := cfg0 } }

/-- A log whose single entry is still open. -/
def openState : EffState :=
  { emptyState with user := { log := [openEntry], config := cfg0 } }

/-- A concrete choice of external collaborators for evaluating `executeCmd`:
a fixed clock value, identity-like date conversion, a cancelled open dialog, a
failing file read, and a store holding no valid user JSON. -/
def ext0 : Externals :=
  { now := "0x5",
    convertDateTime := jstr,
    dialogPath := none,
    readFile := fun _ => Except.error (),
    parseUser := fun _ => Except.error JSError.syntaxError,
    jsonData := Except.error JSError.syntaxError,
    saveFileName := none,
    writeErr := none }

/-- The spec's Log invariant (section 3): at most one entry has `end = Open`,
and any such entry is the last appended - equivalently, every entry other than
the last one is closed. -/
def logInvariant (log : List LogEntry) : Prop :=
  ∀ en ∈ log.dropLast, en.e ≠ "undefined"

instance (log : List LogEntry) : Decidable (logInvariant log) := by
  unfold logInvariant; infer_instance

/-- C1: for every Command, `executeCmd` raises a TypeError before invoking any
log-state-machine handler and performs no mutation - the first `switch (true)`
case evaluates `cmd.operation in Log.startOp` whose right operand is
`undefined` (the alias arrays live on `Log.console`, not `Log`), so the call
returns the state unchanged together with a TypeError; the later string case
labels could never match the `true` discriminant anyway. -/
theorem C1_executeCmd_always_typeError :
    ∀ (ext : Externals) (cmd : Command) (st : EffState),
      executeCmd ext cmd st = (st, some JSError.typeError) :=
  fun _ _ _ => rfl

/-- C2 (code evaluated at the failing input): parsing
`edit 1 desc "refactored"` keeps only the quoted token, yielding
`{operation: 'edit', args: ['refactored']}` (the unquoted `1` and `desc` are
discarded), and executing it on a one-entry Log raises a TypeError and leaves
the state - the entry's `d` field, the notifications and the refresh count -
unchanged, contrary to the claim that `d` becomes `"refactored"` and the
refresh signal fires once. -/
theorem C2_edit_scenario_throws :
    parseCmd "edit 1 desc \"refactored\"" =
      some { operation := "edit", args := ["refactored"] } ∧
    executeCmd ext0 { operation := "edit", args := ["refactored"] } oneEntryState =
      (oneEntryState, some JSError.typeError) :=
  ⟨rfl, rfl⟩

/-- C3 (code evaluated at the failing inputs): the `delete` arm converts the
1-based row `k` to `k - 1` and the handler subtracts 1 again, so row 2 of a
two-entry log deletes the FIRST entry (index 0, leaving `[entryB]` instead of
`[entryA]`) and row 1 becomes `splice(-1, 1)`, deleting the LAST entry
(leaving `[entryA]` instead of `[entryB]`). -/
theorem C3_delete_double_decrement :
    (dispatchDelete (some "2") twoEntryState).1.user.log = [entryB] ∧
    (dispatchDelete (some "1") twoEntryState).1.user.log = [entryA] :=
  ⟨rfl, rfl⟩

/-- C4 (code evaluated at the failing input): on an empty Log both `endLog`
and `resume` read the `e` field of `undefined` (`user.log.slice(-1)[0]` /
`user.log.slice(id)[0]` on an empty array) and therefore raise a TypeError
rather than being silent no-ops; the state itself is left unchanged. -/
theorem C4_stop_resume_empty_throw :
    endLog "0x1" emptyState = (emptyState, some JSError.typeError) ∧
    resume "0x1" emptyState = (emptyState, some JSError.typeError) :=
  ⟨rfl, rfl⟩

/-- C5 (code evaluated at the failing input): `rename('sector', 'A', 'B')` on
a log containing an entry with sector `A` is a complete no-op - no entry is
rewritten and no notification (success or not-found) is emitted - because the
guard `category in ['sector', 'sec', 'project', 'pro']` tests key membership
and `'sector'` is not a key of the array; the not-found branch is equally
unreachable, as the second conjunct shows for a sector absent from the log. -/
theorem C5_rename_total_noop :
    rename (some "sector") (some "A") (some "B") oneEntryState = (oneEntryState, none) ∧
    rename (some "sector") (some "Z") (some "B") oneEntryState = (oneEntryState, none) :=
  ⟨rfl, rfl⟩

/-- C6, counterexample: the claim fails for `add`.  Starting from a Log whose
single entry is open (which satisfies the invariant), `addLog` appends a
closed entry with no open-entry check and completes without error, leaving the
open entry no longer last - the resulting Log violates the invariant. -/
theorem C6_counterexample :
    logInvariant openState.user.log ∧
    (addLog jstr (some "x") (some "y") (some "z") (some "06") (some "07") openState).2 = none ∧
    ¬ logInvariant
      ((addLog jstr (some "x") (some "y") (some "z") (some "06") (some "07") openState).1.user.log) :=
  ⟨by decide, rfl, by decide⟩

/-- C7 (code evaluated at the failing input): a line whose first token is
`new` is rejected by `parseCmd` - `Log.console.addOp` is `['add', 'continue']`
so `new` is not in `possibleOperations` - although the parser's own grammar
comment documents `<add> := "add" | "new"`. -/
theorem C7_new_rejected :
    parseCmd "new \"work\" \"site\" \"x\"" = none ∧
    possibleOperations.contains "new" = false :=
  ⟨rfl, rfl⟩

end LogJS

namespace LogJS

/-- When the invariant holds and the last entry is not open (or the log is
empty), every entry of the log is closed. -/
theorem lastOpen_false_all_closed (log : List LogEntry) (hinv : logInvariant log)
    (hlo : lastOpen log = false) : ∀ en ∈ log, en.e ≠ "undefined" := by
  intro en hen
  rcases eq_or_ne log [] with hnil | hne
  · subst hnil; simp at hen
  · have hsplit := List.dropLast_append_getLast hne
    rw [← hsplit] at hen
    rcases List.mem_append.mp hen with h1 | h2
    · exact hinv en h1
    · have heq : en = log.getLast hne := by simpa using h2
      subst heq
      unfold lastOpen at hlo
      rw [List.getLast?_eq_getLast log hne] at hlo
      simpa using hlo

/-- Appending any entry to an all-closed log yields a log satisfying the
invariant. -/
theorem logInvariant_push (log : List LogEntry) (en : LogEntry)
    (hall : ∀ x ∈ log, x.e ≠ "undefined") : logInvariant (log ++ [en]) := by
  intro x hx
  rw [List.dropLast_concat] at hx
  exact hall x hx

/-- The element `user.log.slice(-1)[0]` inspected by `resume` at its default
argument is exactly the last entry of the log. -/
theorem resume_scrutinee (log : List LogEntry) :
    (log.drop (jsSliceStart log.length (-1))).head? = log.getLast? := by
  induction log with
  | nil => rfl
  | cons a rest ih =>
    cases rest with
    | nil => rfl
    | cons b t =>
      have h1 : jsSliceStart (a :: b :: t).length (-1) = (b :: t).length := by
        simp only [jsSliceStart, List.length_cons]
        split
        · omega
        · omega
      have h2 : jsSliceStart (b :: t).length (-1) = t.length := by
        simp only [jsSliceStart, List.length_cons]
        split
        · omega
        · omega
      rw [h2] at ih
      rw [h1]
      simpa [List.getLast?_cons_cons] using ih

/-- C6, amended: `start`, `stop` and `resume` (at its default last-entry
index, the only way the dispatcher invokes it) preserve the Log invariant;
`add` is excluded, since it performs no open-entry check and can leave an open
entry in a non-final position (see the counterexample). -/
theorem C6_start_stop_resume_preserve_invariant :
    ∀ (st : EffState) (now : String) (sect proj desc : Option String),
      logInvariant st.user.log →
      logInvariant (startLog now sect proj desc st).1.user.log ∧
      logInvariant (endLog now st).1.user.log ∧
      logInvariant (resume now st).1.user.log := by
  intro st now sect proj desc hinv
  refine ⟨?_, ?_, ?_⟩
  · by_cases hlo : lastOpen st.user.log
    · simpa [startLog, hlo] using hinv
    · rw [Bool.not_eq_true] at hlo
      simp [startLog, hlo, notify, optionsUpdate]
      exact logInvariant_push _ _ (lastOpen_false_all_closed _ hinv hlo)
  · rw [endLog]
    cases hgl : st.user.log.getLast? with
    | none => simpa using hinv
    | some last =>
      by_cases hcl : last.e = "undefined"
      · simp only [hcl, bne_self_eq_false, Bool.false_eq_true, if_false, notify, optionsUpdate]
        intro x hx
        rw [List.dropLast_concat] at hx
        exact hinv x hx
      · have hbne : (last.e != "undefined") = true := by simpa using hcl
        simpa [hbne] using hinv
  · rw [resume, resume_scrutinee]
    cases hgl : st.user.log.getLast? with
    | none => simpa using hinv
    | some entry =>
      by_cases hop : entry.e = "undefined"
      · simpa [hop] using hinv
      · have hlo : lastOpen st.user.log = false := by
          unfold lastOpen; rw [hgl]; simpa using hop
        have hbeq : (entry.e == "undefined") = false := by simpa using hop
        simp [hbeq, notify, optionsUpdate]
        exact logInvariant_push _ _ (lastOpen_false_all_closed _ hinv hlo)

/-- Witness for the amended C6 theorem at a concrete closed one-entry log. -/
theorem C6_start_stop_resume_preserve_invariant_witness :
    logInvariant oneEntryState.user.log ∧
    (logInvariant (startLog "07" (some "s") (some "p") (some "dd") oneEntryState).1.user.log ∧
     logInvariant (endLog "07" oneEntryState).1.user.log ∧
     logInvariant (resume "07" oneEntryState).1.user.log) :=
  ⟨by decide,
   C6_start_stop_resume_preserve_invariant oneEntryState "07" (some "s") (some "p") (some "dd")
     (by decide)⟩

/-- After any `startLog` call the log is nonempty and its last entry is open:
either the guard fired (so the last entry was already open) or a fresh open
entry was just appended. -/
theorem lastOpen_after_startLog (now : String) (sect proj desc : Option String) (st : EffState) :
    lastOpen (startLog now sect proj desc st).1.user.log = true := by
  by_cases hlo : lastOpen st.user.log
  · simp [startLog, hlo]
  · rw [Bool.not_eq_true] at hlo
    simp only [startLog, hlo, Bool.false_eq_true, if_false]
    simp [notify, optionsUpdate, lastOpen, List.getLast?_concat]

/-- C8: when the last entry exists and is open, `startLog` is a complete
no-op (state unchanged, no notification, no refresh, no error); consequently
Start immediately followed by Start leaves the state identical to its value
after the first Start, whatever that first call did. -/
theorem C8_startLog_noop_when_open :
    ∀ (n1 n2 : String) (a1 b1 c1 a2 b2 c2 : Option String) (st : EffState),
      (lastOpen st.user.log = true → startLog n1 a1 b1 c1 st = (st, none)) ∧
      startLog n2 a2 b2 c2 (startLog n1 a1 b1 c1 st).1 =
        ((startLog n1 a1 b1 c1 st).1, none) := by
  intro n1 n2 a1 b1 c1 a2 b2 c2 st
  constructor
  · intro h
    simp [startLog, h]
  · have hY := lastOpen_after_startLog n1 a1 b1 c1 st
    generalize (startLog n1 a1 b1 c1 st).1 = Y at hY ⊢
    simp [startLog, hY]

/-- Witness for C8 at a concrete state whose single entry is open. -/
theorem C8_startLog_noop_when_open_witness :
    startLog "t1" none none none openState = (openState, none) ∧
    startLog "t2" none none none (startLog "t1" none none none openState).1 =
      ((startLog "t1" none none none openState).1, none) :=
  ⟨(C8_startLog_noop_when_open "t1" "t2" none none none none none none openState).1 (by decide),
   (C8_startLog_noop_when_open "t1" "t2" none none none none none none openState).2⟩

end LogJS

namespace LogJS

/-- Split a character list at every double quote.  With `n` quotes in the
input this yields `n + 1` pieces; the pieces at odd positions are the texts
that stood between consecutive quotes. -/
def splitOnQuote : List Char → List (List Char)
  | [] => [[]]
  | ch :: cs =>
    if ch = quoteChar then [] :: splitOnQuote cs
    else
      match splitOnQuote cs with
      | [] => [[ch]]
      | p :: ps => (ch :: p) :: ps

/-- From the pieces of `splitOnQuote`, keep exactly the texts between MATCHED
quote pairs, in order: piece 1 (between quotes 1 and 2), piece 3 (between
quotes 3 and 4), and so on.  A final piece following an unmatched opening
quote has no closing quote after it and is dropped. -/
def oddPieces : List (List Char) → List String
  | _ :: p1 :: q :: rest => String.mk p1 :: oddPieces (q :: rest)
  | _ => []

/-- The specification's description of argument extraction (spec section 4.1):
the committed arguments are exactly the texts between matched pairs of double
quotes, in order of their closing quotes; characters outside quote pairs are
discarded and a dangling partial argument after an unmatched quote is never
committed. -/
def specQuotedArgs (cs : List Char) : List String := oddPieces (splitOnQuote cs)

theorem oddPieces_cons3 (p0 p1 q : List Char) (rest : List (List Char)) :
    oddPieces (p0 :: p1 :: q :: rest) = String.mk p1 :: oddPieces (q :: rest) := rfl

/-- The head piece never contributes to `oddPieces`. -/
theorem oddPieces_cons_head (p p' : List Char) (ps : List (List Char)) :
    oddPieces (p :: ps) = oddPieces (p' :: ps) := by
  cases ps with
  | nil => rfl
  | cons q rest =>
    cases rest with
    | nil => rfl
    | cons r rest2 => rfl

/-- `splitOnQuote` always returns at least one piece. -/
theorem splitOnQuote_shape (cs : List Char) : ∃ p ps, splitOnQuote cs = p :: ps := by
  induction cs with
  | nil => exact ⟨[], [], rfl⟩
  | cons c rest ih =>
    obtain ⟨p, ps, h⟩ := ih
    by_cases hc : c = quoteChar
    · exact ⟨[], splitOnQuote rest, by simp [splitOnQuote, hc]⟩
    · exact ⟨c :: p, ps, by simp [splitOnQuote, hc, h]⟩

/-- Joint characterisation of the `parseCmd` scanner: outside quotes it
discards characters until the next quote and the result is the paired pieces;
inside quotes with buffer `arg` it commits `arg` extended by the text up to
the next closing quote, or commits nothing if no quote remains. -/
theorem quotedArgsAux_split (cs : List Char) :
    (∀ acc, quotedArgsAux cs false [] acc = acc ++ oddPieces (splitOnQuote cs)) ∧
    (∀ acc arg p ps, splitOnQuote cs = p :: ps →
      quotedArgsAux cs true arg acc =
        if ps = [] then acc
        else acc ++ [String.mk (arg ++ p)] ++ oddPieces ps) := by
  induction cs with
  | nil =>
    constructor
    · intro acc
      simp [quotedArgsAux, splitOnQuote, oddPieces]
    · intro acc arg p ps h
      simp only [splitOnQuote] at h
      injection h with h1 h2
      subst h1
      subst h2
      simp [quotedArgsAux]
  | cons c cs ih =>
    obtain ⟨ihA, ihB⟩ := ih
    constructor
    · intro acc
      by_cases hc : c = quoteChar
      · subst hc
        rw [show quotedArgsAux (quoteChar :: cs) false [] acc
              = quotedArgsAux cs true [] acc from by simp [quotedArgsAux]]
        obtain ⟨p, ps, hs⟩ := splitOnQuote_shape cs
        rw [ihB acc [] p ps hs]
        rw [show splitOnQuote (quoteChar :: cs) = [] :: splitOnQuote cs from by
          simp [splitOnQuote]]
        rw [hs]
        cases ps with
        | nil => simp [oddPieces]
        | cons q rest => simp [oddPieces_cons3]
      · rw [show quotedArgsAux (c :: cs) false [] acc
              = quotedArgsAux cs false [] acc from by simp [quotedArgsAux, hc]]
        rw [ihA acc]
        obtain ⟨p, ps, hs⟩ := splitOnQuote_shape cs
        rw [show splitOnQuote (c :: cs) = (c :: p) :: ps from by simp [splitOnQuote, hc, hs]]
        rw [hs, oddPieces_cons_head (c :: p) p ps]
    · intro acc arg p ps h
      by_cases hc : c = quoteChar
      · subst hc
        rw [show splitOnQuote (quoteChar :: cs) = [] :: splitOnQuote cs from by
          simp [splitOnQuote]] at h
        injection h with h1 h2
        subst h1
        subst h2
        rw [show quotedArgsAux (quoteChar :: cs) true arg acc
              = quotedArgsAux cs false [] (acc ++ [String.mk arg]) from by simp [quotedArgsAux]]
        rw [ihA]
        obtain ⟨p', ps', hs⟩ := splitOnQuote_shape cs
        rw [hs]
        simp
      · obtain ⟨p0, ps0, hs⟩ := splitOnQuote_shape cs
        rw [show splitOnQuote (c :: cs) = (c :: p0) :: ps0 from by
          simp [splitOnQuote, hc, hs]] at h
        injection h with h1 h2
        subst h1
        subst h2
        rw [show quotedArgsAux (c :: cs) true arg acc
              = quotedArgsAux cs true (arg ++ [c]) acc from by simp [quotedArgsAux, hc]]
        rw [ihB acc (arg ++ [c]) p0 ps0 hs]
        by_cases hps : ps0 = []
        · simp [hps]
        · simp [hps]

/-- The scanner of `parseCmd` computes exactly the spec-side description. -/
theorem quotedArgs_eq_spec (s : String) : quotedArgs s = specQuotedArgs s.data := by
  have h := (quotedArgsAux_split s.data).1 []
  simpa [quotedArgs, specQuotedArgs] using h

end LogJS

namespace LogJS

/-- `String.mk` and `String.data` are inverse. -/
theorem mk_data (s : String) : String.mk s.data = s := rfl

/-- String concatenation concatenates the underlying character lists. -/
theorem str_data_append (a b : String) : (a ++ b).data = a.data ++ b.data := rfl

/-- No piece produced by `splitOnQuote` contains a double quote. -/
theorem splitOnQuote_noquote (cs : List Char) :
    ∀ p ∈ splitOnQuote cs, ∀ ch ∈ p, ch ≠ quoteChar := by
  induction cs with
  | nil =>
    intro p hp
    simp only [splitOnQuote, List.mem_singleton] at hp
    subst hp
    simp
  | cons c rest ih =>
    intro p hp
    by_cases hc : c = quoteChar
    · subst hc
      rw [show splitOnQuote (quoteChar :: rest) = [] :: splitOnQuote rest from by
        simp [splitOnQuote]] at hp
      rcases List.mem_cons.mp hp with rfl | hp2
      · simp
      · exact ih p hp2
    · obtain ⟨p0, ps0, hs⟩ := splitOnQuote_shape rest
      rw [show splitOnQuote (c :: rest) = (c :: p0) :: ps0 from by
        simp [splitOnQuote, hc, hs]] at hp
      rcases List.mem_cons.mp hp with rfl | hp2
      · intro ch hch
        rcases List.mem_cons.mp hch with rfl | hch2
        · exact hc
        · exact ih p0 (by rw [hs]; exact List.mem_cons_self _ _) ch hch2
      · exact ih p (by rw [hs]; exact List.mem_cons_of_mem _ hp2)

/-- Every committed argument is one of the `splitOnQuote` pieces, hence
contains no double quote. -/
theorem oddPieces_noquote : ∀ (ps : List (List Char)),
    (∀ p ∈ ps, ∀ ch ∈ p, ch ≠ quoteChar) →
    ∀ a ∈ oddPieces ps, ∀ ch ∈ a.data, ch ≠ quoteChar
  | [], _ => by simp [oddPieces]
  | [_], _ => by simp [oddPieces]
  | [_, _], _ => by simp [oddPieces]
  | p0 :: p1 :: q :: rest, h => by
    intro a ha
    rw [oddPieces_cons3] at ha
    rcases List.mem_cons.mp ha with rfl | ha2
    · exact h p1 (List.mem_cons_of_mem _ (List.mem_cons_self _ _))
    · exact oddPieces_noquote (q :: rest)
        (fun p hp => h p (List.mem_cons_of_mem _ (List.mem_cons_of_mem _ hp))) a ha2

/-- `takeWhile` passes over a prefix that satisfies the predicate
throughout. -/
theorem takeWhile_append_all (p : Char → Bool) (l1 l2 : List Char)
    (h : ∀ c ∈ l1, p c = true) :
    (l1 ++ l2).takeWhile p = l1 ++ l2.takeWhile p := by
  induction l1 with
  | nil => simp
  | cons c cs ih =>
    have hc : p c = true := h c (List.mem_cons_self c cs)
    simp only [List.cons_append, List.takeWhile_cons, hc, if_true]
    rw [ih (fun x hx => h x (List.mem_cons_of_mem c hx))]

/-- Splitting after a quote-free prefix prepends that prefix to the first
piece. -/
theorem splitOnQuote_append (l1 l2 : List Char) (h : ∀ ch ∈ l1, ch ≠ quoteChar)
    (p : List Char) (ps : List (List Char)) (hs : splitOnQuote l2 = p :: ps) :
    splitOnQuote (l1 ++ l2) = (l1 ++ p) :: ps := by
  induction l1 with
  | nil => simpa using hs
  | cons c cs ih =>
    have hc : c ≠ quoteChar := h c (List.mem_cons_self _ _)
    have ih2 := ih (fun x hx => h x (List.mem_cons_of_mem _ hx))
    simp [splitOnQuote, hc, ih2]

/-- The reconstructed argument text of C9: each argument wrapped in double
quotes, each preceded by a single space. -/
def reconstructArgs : List String → String
  | [] => ""
  | a :: rest => " " ++ quoteStr ++ a ++ quoteStr ++ reconstructArgs rest

/-- The reconstructed command line of C9: the operation followed by each
argument wrapped in double quotes, separated by spaces. -/
def reconstruct (cmd : Command) : String :=
  cmd.operation ++ reconstructArgs cmd.args

/-- Parsing the reconstructed quoted-argument text recovers exactly the
arguments, provided none of them contains a double quote. -/
theorem specQuotedArgs_reconstructArgs : ∀ (args : List String),
    (∀ a ∈ args, ∀ ch ∈ a.data, ch ≠ quoteChar) →
    oddPieces (splitOnQuote (reconstructArgs args).data) = args
  | [], _ => rfl
  | a :: rest, h => by
    have hdata : (reconstructArgs (a :: rest)).data
        = ' ' :: quoteChar :: (a.data ++ quoteChar :: (reconstructArgs rest).data) := by
      show (" " ++ quoteStr ++ a ++ quoteStr ++ reconstructArgs rest).data = _
      simp [str_data_append, quoteStr]
    rw [hdata]
    have hq : splitOnQuote (quoteChar :: (reconstructArgs rest).data)
        = [] :: splitOnQuote (reconstructArgs rest).data := by simp [splitOnQuote]
    have hmid : splitOnQuote (a.data ++ quoteChar :: (reconstructArgs rest).data)
        = (a.data ++ []) :: splitOnQuote (reconstructArgs rest).data :=
      splitOnQuote_append a.data _ (h a (List.mem_cons_self _ _)) [] _ hq
    have hspace : ¬((' ' : Char) = quoteChar) := by decide
    obtain ⟨p, ps, hs⟩ := splitOnQuote_shape (reconstructArgs rest).data
    have hsplitfull :
        splitOnQuote (' ' :: quoteChar ::
            (a.data ++ quoteChar :: (reconstructArgs rest).data))
          = [' '] :: a.data :: splitOnQuote (reconstructArgs rest).data := by
      rw [show splitOnQuote (' ' :: quoteChar ::
            (a.data ++ quoteChar :: (reconstructArgs rest).data))
          = match splitOnQuote (quoteChar ::
              (a.data ++ quoteChar :: (reconstructArgs rest).data)) with
            | [] => [[' ']]
            | p :: ps => (' ' :: p) :: ps from by simp [splitOnQuote, hspace]]
      rw [show splitOnQuote (quoteChar ::
            (a.data ++ quoteChar :: (reconstructArgs rest).data))
          = [] :: splitOnQuote (a.data ++ quoteChar :: (reconstructArgs rest).data) from by
        simp [splitOnQuote]]
      rw [hmid]
      simp
    rw [hsplitfull, hs, oddPieces_cons3, ← hs]
    rw [specQuotedArgs_reconstructArgs rest
      (fun x hx => h x (List.mem_cons_of_mem _ hx))]

/-- A successful membership check identifies a member of the concrete
operation list. -/
theorem mem_of_contains (op : String) (h : possibleOperations.contains op = true) :
    op ∈ possibleOperations := by
  simpa [List.contains, List.elem_iff] using h

/-- Destructure a successful parse: the operation is the lower-cased first
token and passed the registry check, and the arguments come from the quote
scanner. -/
theorem parseCmd_some (s : String) (cmd : Command) (h : parseCmd s = some cmd) :
    possibleOperations.contains cmd.operation = true ∧
    cmd.operation = jsToLower (firstToken s) ∧
    cmd.args = quotedArgs s := by
  by_cases hc : possibleOperations.contains (jsToLower (firstToken s)) = true
  · have hm : jsToLower (firstToken s) ∈ possibleOperations := mem_of_contains _ hc
    rw [show parseCmd s
        = some { operation := jsToLower (firstToken s), args := quotedArgs s } from by
      simp [parseCmd, hm]] at h
    injection h with h1
    subst h1
    exact ⟨hc, rfl, rfl⟩
  · have hm : jsToLower (firstToken s) ∉ possibleOperations := fun hmm =>
      hc (by simpa [List.contains, List.elem_iff] using hmm)
    rw [show parseCmd s = none from by simp [parseCmd, hm]] at h
    cases h

/-- Every registered operation token is already lower case and contains
neither a space nor a double quote. -/
theorem op_facts :
    ∀ op ∈ possibleOperations,
      jsToLower op = op ∧ ∀ ch ∈ op.data, ch ≠ ' ' ∧ ch ≠ quoteChar := by
  decide

/-- The first whitespace-delimited token of a reconstructed command line is
the operation itself, since operation tokens contain no space. -/
theorem firstToken_reconstruct (cmd : Command)
    (hop : ∀ ch ∈ cmd.operation.data, ch ≠ ' ') :
    firstToken (reconstruct cmd) = cmd.operation := by
  show String.mk (((cmd.operation ++ reconstructArgs cmd.args).data).takeWhile
    (fun c => c != ' ')) = cmd.operation
  rw [str_data_append]
  rw [takeWhile_append_all _ _ _ (fun c hc => by simpa using hop c hc)]
  cases hargs : cmd.args with
  | nil =>
    show String.mk (cmd.operation.data ++ (String.data "").takeWhile (fun c => c != ' '))
      = cmd.operation
    rw [show (String.data "").takeWhile (fun c => c != ' ') = [] from rfl]
    rw [List.append_nil, mk_data]
  | cons a rest =>
    have hd : (reconstructArgs (a :: rest)).data
        = ' ' :: (quoteStr ++ a ++ quoteStr ++ reconstructArgs rest).data := by
      show (" " ++ quoteStr ++ a ++ quoteStr ++ reconstructArgs rest).data = _
      simp [str_data_append]
    rw [hd]
    rw [show (' ' :: (quoteStr ++ a ++ quoteStr ++ reconstructArgs rest).data).takeWhile
        (fun c => c != ' ') = [] from by simp [List.takeWhile_cons]]
    rw [List.append_nil, mk_data]

/-- C9: for every input accepted by `parseCmd`, re-parsing the reconstructed
line - the operation followed by each argument wrapped in double quotes -
yields a Command equal to the original. -/
theorem C9_parse_reparse_roundtrip :
    ∀ (s : String) (cmd : Command), parseCmd s = some cmd →
      parseCmd (reconstruct cmd) = some cmd := by
  intro s cmd h
  obtain ⟨hc, hop, hargs⟩ := parseCmd_some s cmd h
  have hmem : cmd.operation ∈ possibleOperations := mem_of_contains _ hc
  obtain ⟨hlow, hchars⟩ := op_facts cmd.operation hmem
  have hft : firstToken (reconstruct cmd) = cmd.operation :=
    firstToken_reconstruct cmd (fun ch hch => (hchars ch hch).1)
  have hieq : jsToLower (firstToken (reconstruct cmd)) = cmd.operation := by
    rw [hft, hlow]
  have hargsNQ : ∀ a ∈ cmd.args, ∀ ch ∈ a.data, ch ≠ quoteChar := by
    intro a ha
    have ha2 : a ∈ oddPieces (splitOnQuote s.data) := by
      rw [hargs, quotedArgs_eq_spec] at ha
      exact ha
    exact oddPieces_noquote _ (splitOnQuote_noquote s.data) a ha2
  have hargs2 : quotedArgs (reconstruct cmd) = cmd.args := by
    rw [quotedArgs_eq_spec]
    show oddPieces (splitOnQuote (cmd.operation ++ reconstructArgs cmd.args).data) = cmd.args
    rw [str_data_append]
    obtain ⟨p, ps, hs⟩ := splitOnQuote_shape (reconstructArgs cmd.args).data
    rw [splitOnQuote_append cmd.operation.data _
      (fun ch hch => (hchars ch hch).2) p ps hs]
    rw [oddPieces_cons_head (cmd.operation.data ++ p) p ps, ← hs]
    exact specQuotedArgs_reconstructArgs cmd.args hargsNQ
  have hmem2 : jsToLower (firstToken (reconstruct cmd)) ∈ possibleOperations := by
    rw [hieq]; exact hmem
  rw [show parseCmd (reconstruct cmd)
      = some { operation := jsToLower (firstToken (reconstruct cmd)),
               args := quotedArgs (reconstruct cmd) } from by
    simp [parseCmd, hmem2]]
  rw [hieq, hargs2]

/-- Witness for C9 at a concrete accepted input with an upper-case operation
token and two quoted arguments. -/
theorem C9_parse_reparse_roundtrip_witness :
    parseCmd "START \"a b\" \"c\"" = some { operation := "start", args := ["a b", "c"] } ∧
    parseCmd (reconstruct { operation := "start", args := ["a b", "c"] }) =
      some { operation := "start", args := ["a b", "c"] } :=
  ⟨by decide,
   C9_parse_reparse_roundtrip "START \"a b\" \"c\""
     { operation := "start", args := ["a b", "c"] } (by decide)⟩

/-- C10: for every accepted input string, the argument list returned by
`parseCmd` is exactly the text between each matched pair of double quotes,
committed in order at each closing quote; characters outside quote pairs are
discarded, and with an odd number of quotes the text buffered after the last,
unmatched quote is never committed (`specQuotedArgs` drops the final unpaired
piece). -/
theorem C10_args_between_matched_quotes :
    ∀ (s : String) (cmd : Command), parseCmd s = some cmd →
      cmd.args = specQuotedArgs s.data := by
  intro s cmd h
  obtain ⟨_, _, hargs⟩ := parseCmd_some s cmd h
  rw [hargs, quotedArgs_eq_spec]

/-- Witness for C10 at a concrete input with text outside quotes and a
dangling unmatched quote whose trailing text is dropped. -/
theorem C10_args_between_matched_quotes_witness :
    parseCmd "start \"a b\"junk\"c\" tail\"drop" =
      some { operation := "start", args := ["a b", "c"] } ∧
    (Command.mk "start" ["a b", "c"]).args =
      specQuotedArgs (String.data "start \"a b\"junk\"c\" tail\"drop") :=
  ⟨by decide,
   C10_args_between_matched_quotes "start \"a b\"junk\"c\" tail\"drop"
     (Command.mk "start" ["a b", "c"]) (by decide)⟩

end LogJS
